import Mathlib

/-!
Verification of the perceptual log-frequency band extraction engine of
historyViper/visualizer-web, a shallow embedding of the method
`AudioAnalyzer.getLogBands` of `src/audio/analyzer.js` (together with the
pieces of the class state that method touches).

Modelling conventions:
* JavaScript numbers are modelled as real numbers (`ℝ`); `Math.pow` on a
  nonnegative base is `Real.rpow`, `Math.log` is `Real.log`, `Math.exp` is
  `Real.exp`, `Math.floor`/`Math.ceil`/`Math.round` are `Int.floor`,
  `Int.ceil` and `round` (JavaScript rounds half towards positive
  infinity, which is exactly the Mathlib `round x = ⌊x + 1/2⌋`).
* The three `Map`s `_rawBands`, `_peakBands`, `_smoothedBands` keyed by
  `bandCount` are modelled as functions `ℤ → Option (List ℝ)`, `none`
  meaning the key is absent.
* `new Float32Array(bandCount)` throws a `RangeError` when `bandCount` is
  negative; a call of `getLogBands` that reaches that allocation is
  modelled by the result `none` (the exceptional outcome).  Every other
  call returns `some (newState, returnedBuffer)`.
* The spectral frame delivered by `getFloatFrequencyData` is an input
  `frame : ℤ → ℝ` of decibel magnitudes, read only at indices inside
  `[minBin, maxBin] ⊆ [1, binCount - 1]`.
-/

/-- The destructured options record of `getLogBands` (lines 69–81 of
`src/audio/analyzer.js`). -/
structure Config where
  freqMin : ℝ
  freqMax : ℝ
  tilt : ℝ
  bassTame : ℝ
  bassTameRange : ℝ
  gain : ℝ
  compress : ℝ
  attack : ℝ
  release : ℝ
  smoothing : ℝ
  noiseFloor : ℝ

/-- The default values of the destructured options (lines 70–80). -/
noncomputable def defaultConfig : Config :=
  ⟨80, 18000, 0.35, 0.5, 0.15, 1.5, 0.8, 0.8, 0.15, 0.3, 0.015⟩

/-- The part of the `AudioAnalyzer` instance state read or written by
`getLogBands`: the initialization flag, the audio parameters published by
the analyser node, and the three per-band-count buffer maps. -/
structure AnalyzerState where
  isInitialized : Bool
  sampleRate : ℝ
  fftSize : ℝ
  binCount : ℤ
  raw : ℤ → Option (List ℝ)
  peaks : ℤ → Option (List ℝ)
  smoothed : ℤ → Option (List ℝ)

/-- A freshly constructed (or just initialized) analyzer: all three maps
are empty, matching the constructor at lines 13–15. -/
def initAnalyzer (inited : Bool) (sr fft : ℝ) (bins : ℤ) : AnalyzerState :=
  { isInitialized := inited
    sampleRate := sr
    fftSize := fft
    binCount := bins
    raw := fun _ => none
    peaks := fun _ => none
    smoothed := fun _ => none }

/-- The content of `new Float32Array(n)`: `n` zeros. -/
def zeros (n : ℕ) : List ℝ := List.replicate n 0

/-- `Map.set`: point update of a buffer map. -/
def setMap (m : ℤ → Option (List ℝ)) (k : ℤ) (v : List ℝ) :
    ℤ → Option (List ℝ) :=
  fun k2 => if k2 = k then some v else m k2

/-- The buffer-creation block at lines 84–88: all three maps receive a
fresh zero buffer of length `bandCount` under the key `bandCount`. -/
def ensureBuffers (st : AnalyzerState) (bandCount : ℤ) : AnalyzerState :=
  { st with
    raw := setMap st.raw bandCount (zeros bandCount.toNat)
    peaks := setMap st.peaks bandCount (zeros bandCount.toNat)
    smoothed := setMap st.smoothed bandCount (zeros bandCount.toNat) }

/-- Decibel-to-linear conversion with the floor at -80 dB (line 125):
`Math.pow(10, Math.max(db, -80) / 20)`. -/
noncomputable def linOfDb (db : ℝ) : ℝ := (10 : ℝ) ^ (max db (-80) / 20)

/-- The normalized band position `t = j / Math.max(1, bandCount - 1)`
(line 111); also `bandPos` at line 138. -/
noncomputable def bandT (bandCount : ℤ) (j : ℕ) : ℝ :=
  (j : ℝ) / ((max 1 (bandCount - 1) : ℤ) : ℝ)

/-- The log-spaced target frequency of band `j` (line 112):
`Math.exp(lnMin + t * lnRange)`. -/
noncomputable def fTarget (p : Config) (bandCount : ℤ) (j : ℕ) : ℝ :=
  Real.exp (Real.log p.freqMin + bandT bandCount j * (Real.log p.freqMax - Real.log p.freqMin))

/-- The center bin of band `j` (line 113): `Math.round(fTarget / hzPerBin)`.
Note that the code does not clamp this value. -/
noncomputable def centerBin (sr fft : ℝ) (p : Config) (bandCount : ℤ) (j : ℕ) : ℤ :=
  round (fTarget p bandCount j / (sr / fft))

/-- The adaptive half-window of band `j` (line 116):
`Math.max(1, Math.floor(3 - t * 2))`. -/
noncomputable def windowSize (bandCount : ℤ) (j : ℕ) : ℤ :=
  max 1 ⌊(3 : ℝ) - bandT bandCount j * 2⌋

/-- The lower valid bin (line 102): `Math.max(1, Math.floor(freqMin / hzPerBin))`. -/
noncomputable def minBinOf (sr fft : ℝ) (p : Config) : ℤ :=
  max 1 ⌊p.freqMin / (sr / fft)⌋

/-- The upper valid bin (line 103): `Math.min(binCount - 1, Math.ceil(freqMax / hzPerBin))`. -/
noncomputable def maxBinOf (sr fft : ℝ) (binCount : ℤ) (p : Config) : ℤ :=
  min (binCount - 1) ⌈p.freqMax / (sr / fft)⌉

/-- The window offsets `k ∈ [-w, w]` whose bin `centerBin + k` lies in the
valid range (the guard at line 122). -/
def windowBins (minBin maxBin c w : ℤ) : Finset ℤ :=
  (Finset.Icc (-w) w).filter fun k => minBin ≤ c + k ∧ c + k ≤ maxBin

/-- The window-accumulation loop at lines 118–131: sum the linear energies
of the in-range bins, then divide by their number when it is positive. -/
noncomputable def windowEnergy (frame : ℤ → ℝ) (minBin maxBin c w : ℤ) : ℝ :=
  let s := ∑ k ∈ windowBins minBin maxBin c w, linOfDb (frame (c + k))
  if 0 < (windowBins minBin maxBin c w).card then
    s / ((windowBins minBin maxBin c w).card : ℝ)
  else s

/-- The window-averaged (pre-tilt) energy of band `j` inside a call of
`getLogBands` (lines 109–131). -/
noncomputable def preTiltEnergy (sr fft : ℝ) (binCount : ℤ) (frame : ℤ → ℝ)
    (p : Config) (bandCount : ℤ) (j : ℕ) : ℝ :=
  windowEnergy frame (minBinOf sr fft p) (maxBinOf sr fft binCount p)
    (centerBin sr fft p bandCount j) (windowSize bandCount j)

/-- The soft limiter at lines 157–159: above 0.8 the excess is squashed by
`d / (1 + 2 d)`. -/
noncomputable def softLimit (e : ℝ) : ℝ :=
  if 0.8 < e then 0.8 + (e - 0.8) / (1 + (e - 0.8) * 2) else e

/-- The full per-band pipeline at lines 109–162 computing `raw[j]`:
windowed average, perceptual tilt, bass taming, gain, noise floor,
compression, soft limiter, hard clamp at 1. -/
noncomputable def rawBand (sr fft : ℝ) (binCount : ℤ) (frame : ℤ → ℝ)
    (p : Config) (bandCount : ℤ) (j : ℕ) : ℝ :=
  let f := fTarget p bandCount j
  let e0 := preTiltEnergy sr fft binCount frame p bandCount j
  let e1 := e0 * (f / p.freqMin) ^ p.tilt
  let bandPos := bandT bandCount j
  let e2 := if bandPos < p.bassTameRange then
      e1 ^ (1 + (1 - bandPos / p.bassTameRange) * p.bassTame * 0.8)
    else e1
  let e3 := e2 * p.gain
  let e4 := max 0 (e3 - p.noiseFloor)
  let e5 := if p.compress ≠ 1 then e4 ^ p.compress else e4
  min 1 (softLimit e5)

/-- The attack/release envelope step at lines 167–173. -/
noncomputable def envPeak (attack release rawv pk : ℝ) : ℝ :=
  if pk < rawv then pk + (rawv - pk) * attack else pk + (rawv - pk) * release

/-- The residual smoothing step at line 176. -/
noncomputable def envSmooth (smoothing pk sm : ℝ) : ℝ :=
  sm + (pk - sm) * (1 - smoothing)

/-- The buffer written into `raw` by the loop at lines 109–163. -/
noncomputable def newRawList (st : AnalyzerState) (frame : ℤ → ℝ)
    (bandCount : ℤ) (p : Config) : List ℝ :=
  (List.range bandCount.toNat).map fun j =>
    rawBand st.sampleRate st.fftSize st.binCount frame p bandCount j

/-- The buffer written into `peaks` by the envelope loop at lines
166–173. -/
noncomputable def newPeaksList (st : AnalyzerState) (frame : ℤ → ℝ)
    (bandCount : ℤ) (p : Config) : List ℝ :=
  (List.range bandCount.toNat).map fun j =>
    envPeak p.attack p.release ((newRawList st frame bandCount p).getD j 0)
      (((st.peaks bandCount).getD (zeros bandCount.toNat)).getD j 0)

/-- The buffer written into `smoothed` at line 176; each entry smooths the
just-updated peak of the same index. -/
noncomputable def newSmoothedList (st : AnalyzerState) (frame : ℤ → ℝ)
    (bandCount : ℤ) (p : Config) : List ℝ :=
  (List.range bandCount.toNat).map fun j =>
    envSmooth p.smoothing ((newPeaksList st frame bandCount p).getD j 0)
      (((st.smoothed bandCount).getD (zeros bandCount.toNat)).getD j 0)

/-- The body of `getLogBands` after the buffer-creation block (lines
90–179), given a state in which the buffers for `bandCount` exist. -/
noncomputable def getLogBandsCore (st : AnalyzerState) (frame : ℤ → ℝ)
    (bandCount : ℤ) (p : Config) : AnalyzerState × List ℝ :=
  if st.isInitialized = false then
    (st, (st.smoothed bandCount).getD (zeros bandCount.toNat))
  else
    ({ st with
        raw := setMap st.raw bandCount (newRawList st frame bandCount p)
        peaks := setMap st.peaks bandCount (newPeaksList st frame bandCount p)
        smoothed := setMap st.smoothed bandCount (newSmoothedList st frame bandCount p) },
      newSmoothedList st frame bandCount p)

/-- The method `getLogBands` (lines 68–180).  The result is `none` exactly
when the buffer-creation block throws, that is, when no buffer exists for
`bandCount` and `new Float32Array(bandCount)` fails on a negative length;
otherwise `some (st2, out)` where `st2` is the updated instance state and
`out` the returned buffer. -/
noncomputable def getLogBands (st : AnalyzerState) (frame : ℤ → ℝ)
    (bandCount : ℤ) (p : Config) : Option (AnalyzerState × List ℝ) :=
  if (st.raw bandCount).isSome then some (getLogBandsCore st frame bandCount p)
  else if bandCount < 0 then none
  else some (getLogBandsCore (ensureBuffers st bandCount) frame bandCount p)

/-- One animation-frame invocation: the spectral frame delivered by the
analyser node, the requested band count and the options record. -/
structure CallInput where
  frame : ℤ → ℝ
  bandCount : ℤ
  config : Config

/-- The state after one invocation (a thrown call leaves the instance
state unchanged). -/
noncomputable def callStep (st : AnalyzerState) (c : CallInput) : AnalyzerState :=
  match getLogBands st c.frame c.bandCount c.config with
  | none => st
  | some r => r.1

/-- The state after a sequence of invocations. -/
noncomputable def runCalls (st : AnalyzerState) (cs : List CallInput) : AnalyzerState :=
  cs.foldl callStep st

/-- The sequence of observable results of a sequence of invocations
(`none` records a thrown call). -/
noncomputable def runOutputs (st : AnalyzerState) : List CallInput → List (Option (List ℝ))
  | [] => []
  | c :: rest =>
      (getLogBands st c.frame c.bandCount c.config).map Prod.snd ::
        runOutputs (callStep st c) rest

/-- The configuration-validity predicate used by the specification: the
envelope and smoothing coefficients are fractions, gain, tilt and
bassTame are nonnegative, compression is positive, and the frequency
bounds are ordered and positive. -/
def ValidConfig (p : Config) : Prop :=
  0 ≤ p.attack ∧ p.attack ≤ 1 ∧ 0 ≤ p.release ∧ p.release ≤ 1 ∧
  0 ≤ p.smoothing ∧ p.smoothing ≤ 1 ∧ 0 ≤ p.gain ∧ 0 < p.compress ∧
  0 ≤ p.tilt ∧ 0 ≤ p.bassTame ∧ 0 < p.freqMin ∧ p.freqMin < p.freqMax

/-- The persistent-buffer invariant: every stored `peaks` or `smoothed`
buffer has the length of its key and all its entries lie in `[0, 1]`. -/
def GoodState (st : AnalyzerState) : Prop :=
  ∀ k l, (st.peaks k = some l ∨ st.smoothed k = some l) →
    l.length = k.toNat ∧ ∀ x ∈ l, 0 ≤ x ∧ x ≤ 1

/-! ### Basic lemmas about the helper definitions -/

theorem zeros_length (n : ℕ) : (zeros n).length = n := List.length_replicate n 0

theorem mem_zeros {n : ℕ} {x : ℝ} (hx : x ∈ zeros n) : 0 ≤ x ∧ x ≤ 1 := by
  have h := List.eq_of_mem_replicate hx
  subst h
  norm_num

theorem getD_map_range (f : ℕ → ℝ) {j n : ℕ} (h : j < n) :
    ((List.range n).map f).getD j 0 = f j := by
  rw [List.getD_eq_getElem?_getD]
  simp [List.getElem?_map, List.getElem?_range h]

theorem getD_mem_unit {l : List ℝ} (h : ∀ x ∈ l, 0 ≤ x ∧ x ≤ 1) (j : ℕ) :
    0 ≤ l.getD j 0 ∧ l.getD j 0 ≤ 1 := by
  rw [List.getD_eq_getElem?_getD]
  cases hg : l[j]? with
  | none => norm_num
  | some a =>
      obtain ⟨hlt, he⟩ := List.getElem?_eq_some.mp hg
      simpa using h a (he ▸ List.getElem_mem hlt)

theorem lerp_mem_unit {a b c : ℝ} (ha : 0 ≤ a) (ha1 : a ≤ 1) (hb : 0 ≤ b)
    (hb1 : b ≤ 1) (hc : 0 ≤ c) (hc1 : c ≤ 1) :
    0 ≤ a + (b - a) * c ∧ a + (b - a) * c ≤ 1 := by
  constructor <;> nlinarith

theorem softLimit_nonneg {e : ℝ} (he : 0 ≤ e) : 0 ≤ softLimit e := by
  rw [softLimit]
  split
  · rename_i h
    have hD : (0:ℝ) < 1 + (e - 0.8) * 2 := by nlinarith
    have hq : 0 ≤ (e - 0.8) / (1 + (e - 0.8) * 2) :=
      div_nonneg (by linarith) hD.le
    linarith
  · exact he

theorem compressStage_nonneg (x c : ℝ) :
    0 ≤ if c ≠ 1 then (max 0 x) ^ c else max 0 x := by
  split
  · exact Real.rpow_nonneg (le_max_left 0 x) c
  · exact le_max_left 0 x

theorem rawBand_nonneg (sr fft : ℝ) (binCount : ℤ) (frame : ℤ → ℝ)
    (p : Config) (bandCount : ℤ) (j : ℕ) :
    0 ≤ rawBand sr fft binCount frame p bandCount j := by
  simp only [rawBand]
  exact le_min (by norm_num) (softLimit_nonneg (compressStage_nonneg _ _))

theorem rawBand_le_one (sr fft : ℝ) (binCount : ℤ) (frame : ℤ → ℝ)
    (p : Config) (bandCount : ℤ) (j : ℕ) :
    rawBand sr fft binCount frame p bandCount j ≤ 1 := by
  rw [rawBand]
  exact min_le_left 1 _

theorem envPeak_mem_unit {attack release rawv pk : ℝ}
    (ha : 0 ≤ attack) (ha1 : attack ≤ 1) (hr : 0 ≤ release) (hr1 : release ≤ 1)
    (hv : 0 ≤ rawv) (hv1 : rawv ≤ 1) (hp : 0 ≤ pk) (hp1 : pk ≤ 1) :
    0 ≤ envPeak attack release rawv pk ∧ envPeak attack release rawv pk ≤ 1 := by
  rw [envPeak]
  split
  · exact lerp_mem_unit hp hp1 hv hv1 ha ha1
  · exact lerp_mem_unit hp hp1 hv hv1 hr hr1

theorem envSmooth_mem_unit {smoothing pk sm : ℝ}
    (hs : 0 ≤ smoothing) (hs1 : smoothing ≤ 1) (hp : 0 ≤ pk) (hp1 : pk ≤ 1)
    (hm : 0 ≤ sm) (hm1 : sm ≤ 1) :
    0 ≤ envSmooth smoothing pk sm ∧ envSmooth smoothing pk sm ≤ 1 := by
  rw [envSmooth]
  exact lerp_mem_unit hm hm1 hp hp1 (by linarith) (by linarith)

/-! ### Claim C10: mathematical properties of the soft-knee limiter -/

/-- C10: on the limiter branch (inputs above the 0.8 knee) the curve
`0.8 + (e-0.8)/(1+(e-0.8)*2)` is strictly increasing, stays below 1.3,
exceeds 1.0 for every input above `17/15` (so the final hard clamp
`min 1` is what guarantees `raw[j] ≤ 1`), and both branches agree at the
knee `e = 0.8`, making the limiter continuous there. -/
theorem softLimit_props :
    (∀ a b : ℝ, 0.8 < a → a < b → softLimit a < softLimit b) ∧
    (∀ e : ℝ, 0.8 < e → softLimit e < 1.3) ∧
    (∀ e : ℝ, 17 / 15 < e → 1 < softLimit e) ∧
    softLimit 0.8 = 0.8 ∧ (0.8 : ℝ) + (0.8 - 0.8) / (1 + (0.8 - 0.8) * 2) = 0.8 := by
  refine ⟨?_, ?_, ?_, ?_, by norm_num⟩
  · intro a b ha hab
    have hb : (0.8 : ℝ) < b := lt_trans ha hab
    rw [softLimit, softLimit, if_pos ha, if_pos hb]
    have hDa : (0:ℝ) < 1 + (a - 0.8) * 2 := by nlinarith
    have hDb : (0:ℝ) < 1 + (b - 0.8) * 2 := by nlinarith
    have key : (a - 0.8) / (1 + (a - 0.8) * 2) < (b - 0.8) / (1 + (b - 0.8) * 2) := by
      rw [div_lt_div_iff₀ hDa hDb]
      nlinarith
    linarith
  · intro e he
    rw [softLimit, if_pos he]
    have hD : (0:ℝ) < 1 + (e - 0.8) * 2 := by nlinarith
    have key : (e - 0.8) / (1 + (e - 0.8) * 2) < 1 / 2 := by
      rw [div_lt_div_iff₀ hD (by norm_num : (0:ℝ) < 2)]
      nlinarith
    linarith
  · intro e he
    have he8 : (0.8 : ℝ) < e := by nlinarith
    rw [softLimit, if_pos he8]
    have hD : (0:ℝ) < 1 + (e - 0.8) * 2 := by nlinarith
    have key : (1 : ℝ) / 5 < (e - 0.8) / (1 + (e - 0.8) * 2) := by
      rw [div_lt_div_iff₀ (by norm_num : (0:ℝ) < 5) hD]
      nlinarith
    linarith
  · rw [softLimit, if_neg (lt_irrefl (0.8 : ℝ))]

/-- Witness for C10: the limiter evaluated at concrete points above the
knee, exercising every hypothesis of `softLimit_props`. -/
theorem softLimit_props_witness :
    softLimit 1 < softLimit 2 ∧ softLimit 1 < 1.3 ∧ 1 < softLimit 2 ∧
      softLimit 0.8 = 0.8 := by
  refine ⟨softLimit_props.1 1 2 (by norm_num) (by norm_num),
    softLimit_props.2.1 1 (by norm_num),
    softLimit_props.2.2.1 2 (by norm_num),
    softLimit_props.2.2.2.1⟩

/-! ### Preservation of the buffer invariant -/

theorem optBuf_getD_mem {o : Option (List ℝ)} {n : ℕ}
    (ho : ∀ l, o = some l → ∀ x ∈ l, 0 ≤ x ∧ x ≤ 1) (j : ℕ) :
    0 ≤ (o.getD (zeros n)).getD j 0 ∧ (o.getD (zeros n)).getD j 0 ≤ 1 := by
  cases o with
  | none => exact getD_mem_unit (fun x hx => mem_zeros hx) j
  | some l => exact getD_mem_unit (ho l rfl) j

theorem GoodState.set2 {st st2 : AnalyzerState} (h : GoodState st) {bc : ℤ}
    {pl sl : List ℝ}
    (hp2 : st2.peaks = setMap st.peaks bc pl)
    (hs2 : st2.smoothed = setMap st.smoothed bc sl)
    (hpl : pl.length = bc.toNat) (hpl1 : ∀ x ∈ pl, 0 ≤ x ∧ x ≤ 1)
    (hsl : sl.length = bc.toNat) (hsl1 : ∀ x ∈ sl, 0 ≤ x ∧ x ≤ 1) :
    GoodState st2 := by
  intro k l hkl
  rcases hkl with hq | hq
  · rw [hp2] at hq
    simp only [setMap] at hq
    by_cases hk : k = bc
    · rw [if_pos hk, Option.some_inj] at hq
      subst hq
      exact ⟨hk ▸ hpl, hpl1⟩
    · rw [if_neg hk] at hq
      exact h k l (Or.inl hq)
  · rw [hs2] at hq
    simp only [setMap] at hq
    by_cases hk : k = bc
    · rw [if_pos hk, Option.some_inj] at hq
      subst hq
      exact ⟨hk ▸ hsl, hsl1⟩
    · rw [if_neg hk] at hq
      exact h k l (Or.inr hq)

theorem ensureBuffers_good {st : AnalyzerState} (h : GoodState st) (bc : ℤ) :
    GoodState (ensureBuffers st bc) :=
  h.set2 rfl rfl (zeros_length _) (fun _ hx => mem_zeros hx)
    (zeros_length _) (fun _ hx => mem_zeros hx)

theorem newPeaksList_mem {st : AnalyzerState} (h : GoodState st)
    {p : Config} (hp : ValidConfig p) (frame : ℤ → ℝ) (bc : ℤ) :
    ∀ x ∈ newPeaksList st frame bc p, 0 ≤ x ∧ x ≤ 1 := by
  intro x hx
  rw [newPeaksList] at hx
  obtain ⟨j, hj, rfl⟩ := List.mem_map.mp hx
  rw [List.mem_range] at hj
  have hraw : 0 ≤ (newRawList st frame bc p).getD j 0 ∧
      (newRawList st frame bc p).getD j 0 ≤ 1 := by
    rw [newRawList, getD_map_range _ hj]
    exact ⟨rawBand_nonneg _ _ _ _ _ _ _, rawBand_le_one _ _ _ _ _ _ _⟩
  have hpk := optBuf_getD_mem (o := st.peaks bc) (n := bc.toNat)
    (fun l hl => fun x hx2 => (h bc l (Or.inl hl)).2 x hx2) j
  exact envPeak_mem_unit hp.1 hp.2.1 hp.2.2.1 hp.2.2.2.1
    hraw.1 hraw.2 hpk.1 hpk.2

theorem newSmoothedList_mem {st : AnalyzerState} (h : GoodState st)
    {p : Config} (hp : ValidConfig p) (frame : ℤ → ℝ) (bc : ℤ) :
    ∀ x ∈ newSmoothedList st frame bc p, 0 ≤ x ∧ x ≤ 1 := by
  intro x hx
  rw [newSmoothedList] at hx
  obtain ⟨j, hj, rfl⟩ := List.mem_map.mp hx
  rw [List.mem_range] at hj
  have hpk := getD_mem_unit (newPeaksList_mem h hp frame bc) j
  have hsm := optBuf_getD_mem (o := st.smoothed bc) (n := bc.toNat)
    (fun l hl => fun x hx2 => (h bc l (Or.inr hl)).2 x hx2) j
  exact envSmooth_mem_unit hp.2.2.2.2.1 hp.2.2.2.2.2.1
    hpk.1 hpk.2 hsm.1 hsm.2

theorem newPeaksList_length (st : AnalyzerState) (frame : ℤ → ℝ)
    (bc : ℤ) (p : Config) : (newPeaksList st frame bc p).length = bc.toNat := by
  rw [newPeaksList, List.length_map, List.length_range]

theorem newSmoothedList_length (st : AnalyzerState) (frame : ℤ → ℝ)
    (bc : ℤ) (p : Config) : (newSmoothedList st frame bc p).length = bc.toNat := by
  rw [newSmoothedList, List.length_map, List.length_range]

theorem getLogBandsCore_good {st : AnalyzerState} (h : GoodState st)
    {p : Config} (hp : ValidConfig p) (frame : ℤ → ℝ) (bc : ℤ) :
    GoodState (getLogBandsCore st frame bc p).1 ∧
    (getLogBandsCore st frame bc p).2.length = bc.toNat ∧
    ∀ x ∈ (getLogBandsCore st frame bc p).2, 0 ≤ x ∧ x ≤ 1 := by
  rw [getLogBandsCore]
  split
  · refine ⟨h, ?_, ?_⟩
    · cases hsm : st.smoothed bc with
      | none => simp [zeros_length]
      | some l => simpa using (h bc l (Or.inr hsm)).1
    · cases hsm : st.smoothed bc with
      | none =>
          intro x hx
          simp only [hsm, Option.getD_none] at hx
          exact mem_zeros hx
      | some l =>
          intro x hx
          simp only [hsm, Option.getD_some] at hx
          exact (h bc l (Or.inr hsm)).2 x hx
  · exact ⟨h.set2 rfl rfl (newPeaksList_length _ _ _ _)
      (newPeaksList_mem h hp frame bc) (newSmoothedList_length _ _ _ _)
      (newSmoothedList_mem h hp frame bc),
      newSmoothedList_length _ _ _ _, newSmoothedList_mem h hp frame bc⟩

theorem getLogBands_good {st : AnalyzerState} (h : GoodState st)
    {p : Config} (hp : ValidConfig p) (frame : ℤ → ℝ) (bc : ℤ) :
    ∀ r ∈ getLogBands st frame bc p,
      GoodState r.1 ∧ r.2.length = bc.toNat ∧ ∀ x ∈ r.2, 0 ≤ x ∧ x ≤ 1 := by
  intro r hr
  rw [getLogBands] at hr
  split at hr
  · rw [Option.mem_def, Option.some_inj] at hr
    subst hr
    exact getLogBandsCore_good h hp frame bc
  · split at hr
    · simp at hr
    · rw [Option.mem_def, Option.some_inj] at hr
      subst hr
      exact getLogBandsCore_good (ensureBuffers_good h bc) hp frame bc

theorem getLogBands_isSome (st : AnalyzerState) (frame : ℤ → ℝ)
    {bc : ℤ} (hbc : 0 ≤ bc) (p : Config) :
    (getLogBands st frame bc p).isSome := by
  rw [getLogBands]
  split
  · rfl
  · rw [if_neg (not_lt.mpr hbc)]
    rfl

theorem callStep_good {st : AnalyzerState} (h : GoodState st)
    {c : CallInput} (hc : ValidConfig c.config) : GoodState (callStep st c) := by
  rw [callStep]
  cases hg : getLogBands st c.frame c.bandCount c.config with
  | none => exact h
  | some r => exact (getLogBands_good h hc c.frame c.bandCount r hg).1

theorem runCalls_good {st : AnalyzerState} (h : GoodState st)
    {cs : List CallInput} (hcs : ∀ c ∈ cs, ValidConfig c.config) :
    GoodState (runCalls st cs) := by
  induction cs generalizing st with
  | nil => exact h
  | cons c rest ih =>
      exact ih (callStep_good h (hcs c (List.mem_cons_self c rest)))
        (fun d hd => hcs d (List.mem_cons_of_mem c hd))

theorem initAnalyzer_good (inited : Bool) (sr fft : ℝ) (bins : ℤ) :
    GoodState (initAnalyzer inited sr fft bins) := by
  intro k l hkl
  rcases hkl with hq | hq <;> simp [initAnalyzer] at hq

/-! ### Claim C1: output length and range invariant across call sequences -/

/-- C1: for every `bandCount > 0`, every valid configuration and every
finite spectrum, a call of `getLogBands` performed after any sequence of
validly configured calls starting from the initial all-zero state returns
exactly `bandCount` values, each in `[0, 1]`, however large the energy of
any of the spectra was. -/
theorem getLogBands_output_unit (inited : Bool) (sr fft : ℝ) (bins : ℤ)
    (calls : List CallInput) (hcalls : ∀ c ∈ calls, ValidConfig c.config)
    (bandCount : ℤ) (hbc : 0 < bandCount) (p : Config) (hp : ValidConfig p)
    (frame : ℤ → ℝ) :
    ∃ st2 out,
      getLogBands (runCalls (initAnalyzer inited sr fft bins) calls)
          frame bandCount p = some (st2, out) ∧
        out.length = bandCount.toNat ∧ ∀ x ∈ out, 0 ≤ x ∧ x ≤ 1 := by
  have hgood := runCalls_good (initAnalyzer_good inited sr fft bins) hcalls
  have hsome := getLogBands_isSome (runCalls (initAnalyzer inited sr fft bins) calls)
    frame (le_of_lt hbc) p
  obtain ⟨r, hr⟩ := Option.isSome_iff_exists.mp hsome
  obtain ⟨_, hlen, hmem⟩ := getLogBands_good hgood hp frame bandCount r hr
  exact ⟨r.1, r.2, by rw [hr], hlen, hmem⟩

/-- A concrete valid configuration used by the witnesses. -/
noncomputable def cfgValid : Config := ⟨1, 2, 0, 0, 0, 0, 1, 1, 1, 0, 0⟩

/-- A concrete silent spectral frame used by the witnesses. -/
noncomputable def frameZero : ℤ → ℝ := fun _ => 0

theorem cfgValid_valid : ValidConfig cfgValid := by
  norm_num [ValidConfig, cfgValid]

/-- Witness for C1: a single call with one band on a freshly initialized
analyzer. -/
theorem getLogBands_output_unit_witness :
    (∀ c ∈ ([] : List CallInput), ValidConfig c.config) ∧ (0 : ℤ) < 1 ∧
      ValidConfig cfgValid ∧
      ∃ st2 out,
        getLogBands (runCalls (initAnalyzer true 44100 4096 2048) [])
            frameZero 1 cfgValid = some (st2, out) ∧
          out.length = (1 : ℤ).toNat ∧ ∀ x ∈ out, 0 ≤ x ∧ x ≤ 1 :=
  ⟨by simp, by norm_num, cfgValid_valid,
    getLogBands_output_unit true 44100 4096 2048 [] (by simp) 1 (by norm_num)
      cfgValid cfgValid_valid frameZero⟩

/-! ### Claim C5: behavior with no spectral source attached -/

/-- C5: with the analyzer not initialized, `getLogBands` with any
`bandCount > 0` never throws, returns the last-known smoothed buffer for
that band count (the all-zero buffer of that length when the key was
never requested), and leaves the readable peak and smoothed values of
every band count exactly as they were.  The hypothesis `hsync` states
that the three buffer maps share their key set, which holds in every
reachable state since the creation block at lines 84–88 always fills all
three together. -/
theorem getLogBands_uninitialized (st : AnalyzerState) (frame : ℤ → ℝ)
    (bandCount : ℤ) (p : Config) (hinit : st.isInitialized = false)
    (hbc : 0 < bandCount)
    (hsync : ∀ k, (st.raw k).isSome = (st.peaks k).isSome ∧
      (st.raw k).isSome = (st.smoothed k).isSome) :
    ∃ st2,
      getLogBands st frame bandCount p =
          some (st2, (st.smoothed bandCount).getD (zeros bandCount.toNat)) ∧
        (∀ k, (st2.peaks k).getD (zeros k.toNat) = (st.peaks k).getD (zeros k.toNat)) ∧
        (∀ k, (st2.smoothed k).getD (zeros k.toNat) = (st.smoothed k).getD (zeros k.toNat)) := by
  rw [getLogBands]
  by_cases hbuf : (st.raw bandCount).isSome
  · rw [if_pos hbuf, getLogBandsCore, if_pos hinit]
    exact ⟨st, rfl, fun k => rfl, fun k => rfl⟩
  · rw [if_neg hbuf, if_neg (not_lt.mpr (le_of_lt hbc)), getLogBandsCore]
    have hinit2 : (ensureBuffers st bandCount).isInitialized = false := hinit
    rw [if_pos hinit2]
    have hraw : st.raw bandCount = none := Option.not_isSome_iff_eq_none.mp hbuf
    have hpk : st.peaks bandCount = none := by
      have h1 := (hsync bandCount).1
      rw [hraw] at h1
      exact Option.not_isSome_iff_eq_none.mp (by rw [← h1]; simp)
    have hsm : st.smoothed bandCount = none := by
      have h1 := (hsync bandCount).2
      rw [hraw] at h1
      exact Option.not_isSome_iff_eq_none.mp (by rw [← h1]; simp)
    refine ⟨ensureBuffers st bandCount, ?_, ?_, ?_⟩
    · rw [show (ensureBuffers st bandCount).smoothed bandCount = some (zeros bandCount.toNat) by
        simp [ensureBuffers, setMap]]
      rw [hsm]
      rfl
    · intro k
      by_cases hk : k = bandCount
      · subst hk
        rw [show (ensureBuffers st k).peaks k = some (zeros k.toNat) by
          simp [ensureBuffers, setMap]]
        rw [hpk]
        rfl
      · show (setMap st.peaks bandCount (zeros bandCount.toNat) k).getD _ = _
        rw [setMap, if_neg hk]
    · intro k
      by_cases hk : k = bandCount
      · subst hk
        rw [show (ensureBuffers st k).smoothed k = some (zeros k.toNat) by
          simp [ensureBuffers, setMap]]
        rw [hsm]
        rfl
      · show (setMap st.smoothed bandCount (zeros bandCount.toNat) k).getD _ = _
        rw [setMap, if_neg hk]

/-- Witness for C5: a fresh unattached analyzer queried for two bands. -/
theorem getLogBands_uninitialized_witness :
    (initAnalyzer false 44100 0 0).isInitialized = false ∧ (0 : ℤ) < 2 ∧
      (∀ k, ((initAnalyzer false 44100 0 0).raw k).isSome =
          ((initAnalyzer false 44100 0 0).peaks k).isSome ∧
        ((initAnalyzer false 44100 0 0).raw k).isSome =
          ((initAnalyzer false 44100 0 0).smoothed k).isSome) ∧
      ∃ st2,
        getLogBands (initAnalyzer false 44100 0 0) frameZero 2 cfgValid =
            some (st2, ((initAnalyzer false 44100 0 0).smoothed 2).getD (zeros (2 : ℤ).toNat)) ∧
          (∀ k, (st2.peaks k).getD (zeros k.toNat) =
            (((initAnalyzer false 44100 0 0).peaks k)).getD (zeros k.toNat)) ∧
          (∀ k, (st2.smoothed k).getD (zeros k.toNat) =
            (((initAnalyzer false 44100 0 0).smoothed k)).getD (zeros k.toNat)) := by
  have hsync : ∀ k, ((initAnalyzer false 44100 0 0).raw k).isSome =
      ((initAnalyzer false 44100 0 0).peaks k).isSome ∧
      ((initAnalyzer false 44100 0 0).raw k).isSome =
      ((initAnalyzer false 44100 0 0).smoothed k).isSome := fun _ => ⟨rfl, rfl⟩
  exact ⟨rfl, by norm_num, hsync,
    getLogBands_uninitialized (initAnalyzer false 44100 0 0) frameZero 2 cfgValid
      rfl (by norm_num) hsync⟩

/-! ### Claim C8: calls advance only the state of their own band count -/

theorem getLogBandsCore_other_keys (st : AnalyzerState) (frame : ℤ → ℝ)
    (n : ℤ) (p : Config) {m : ℤ} (hm : m ≠ n) :
    (getLogBandsCore st frame n p).1.raw m = st.raw m ∧
    (getLogBandsCore st frame n p).1.peaks m = st.peaks m ∧
    (getLogBandsCore st frame n p).1.smoothed m = st.smoothed m := by
  rw [getLogBandsCore]
  split
  · exact ⟨rfl, rfl, rfl⟩
  · refine ⟨?_, ?_, ?_⟩ <;> simp [setMap, hm]

theorem ensureBuffers_other_keys (st : AnalyzerState) (n : ℤ) {m : ℤ} (hm : m ≠ n) :
    (ensureBuffers st n).raw m = st.raw m ∧
    (ensureBuffers st n).peaks m = st.peaks m ∧
    (ensureBuffers st n).smoothed m = st.smoothed m := by
  refine ⟨?_, ?_, ?_⟩ <;> simp [ensureBuffers, setMap, hm]

/-- C8: a call of `getLogBands` for band count `n` leaves the `raw`,
`peaks` and `smoothed` state of every other band count `m ≠ n` exactly
as it was; only the state keyed by `n` is touched. -/
theorem getLogBands_other_keys (st : AnalyzerState) (frame : ℤ → ℝ)
    (n : ℤ) (p : Config) {m : ℤ} (hm : m ≠ n) :
    ∀ r ∈ getLogBands st frame n p,
      r.1.raw m = st.raw m ∧ r.1.peaks m = st.peaks m ∧
        r.1.smoothed m = st.smoothed m := by
  intro r hr
  rw [getLogBands] at hr
  split at hr
  · rw [Option.mem_def, Option.some_inj] at hr
    subst hr
    exact getLogBandsCore_other_keys st frame n p hm
  · split at hr
    · simp at hr
    · rw [Option.mem_def, Option.some_inj] at hr
      subst hr
      obtain ⟨h1, h2, h3⟩ := getLogBandsCore_other_keys (ensureBuffers st n) frame n p hm
      obtain ⟨g1, g2, g3⟩ := ensureBuffers_other_keys st n hm
      exact ⟨h1.trans g1, h2.trans g2, h3.trans g3⟩

/-- The concrete value of the call used by the witnesses of C8: a fresh
unattached analyzer asked for one band. -/
theorem getLogBands_fresh_uninit_eq :
    getLogBands (initAnalyzer false 44100 0 0) frameZero 1 cfgValid =
      some (ensureBuffers (initAnalyzer false 44100 0 0) 1, zeros (1 : ℤ).toNat) := by
  rw [getLogBands]
  rw [if_neg (by simp [initAnalyzer])]
  rw [if_neg (by norm_num)]
  rw [getLogBandsCore,
    if_pos (show (ensureBuffers (initAnalyzer false 44100 0 0) 1).isInitialized = false from rfl)]
  rw [show (ensureBuffers (initAnalyzer false 44100 0 0) 1).smoothed 1 =
    some (zeros (1 : ℤ).toNat) by simp [ensureBuffers, setMap]]
  rfl

/-- Witness for C8: after the concrete call for band count 1, the state
of band count 2 is untouched. -/
theorem getLogBands_other_keys_witness :
    (2 : ℤ) ≠ 1 ∧
      (ensureBuffers (initAnalyzer false 44100 0 0) 1, zeros (1 : ℤ).toNat) ∈
        getLogBands (initAnalyzer false 44100 0 0) frameZero 1 cfgValid ∧
      ((ensureBuffers (initAnalyzer false 44100 0 0) 1).raw 2 =
          (initAnalyzer false 44100 0 0).raw 2 ∧
        (ensureBuffers (initAnalyzer false 44100 0 0) 1).peaks 2 =
          (initAnalyzer false 44100 0 0).peaks 2 ∧
        (ensureBuffers (initAnalyzer false 44100 0 0) 1).smoothed 2 =
          (initAnalyzer false 44100 0 0).smoothed 2) := by
  have hmem : (ensureBuffers (initAnalyzer false 44100 0 0) 1, zeros (1 : ℤ).toNat) ∈
      getLogBands (initAnalyzer false 44100 0 0) frameZero 1 cfgValid := by
    rw [Option.mem_def, getLogBands_fresh_uninit_eq]
  exact ⟨by norm_num, hmem,
    getLogBands_other_keys (initAnalyzer false 44100 0 0) frameZero 1 cfgValid
      (by norm_num) _ hmem⟩

/-! ### Claim C9: determinism over identical call histories -/

/-- C9: two extractor instances in the zero state (no buffer allocated
for any band count) with identical audio parameters produce identical
output sequences when fed the identical sequence of calls: the output is
a function of the input history and the initial zero state only. -/
theorem runOutputs_deterministic (st1 st2 : AnalyzerState)
    (hin : st1.isInitialized = st2.isInitialized)
    (hsr : st1.sampleRate = st2.sampleRate)
    (hff : st1.fftSize = st2.fftSize)
    (hbn : st1.binCount = st2.binCount)
    (h1r : ∀ k, st1.raw k = none) (h1p : ∀ k, st1.peaks k = none)
    (h1s : ∀ k, st1.smoothed k = none)
    (h2r : ∀ k, st2.raw k = none) (h2p : ∀ k, st2.peaks k = none)
    (h2s : ∀ k, st2.smoothed k = none)
    (calls : List CallInput) :
    runOutputs st1 calls = runOutputs st2 calls := by
  have hst : st1 = st2 := by
    cases st1
    cases st2
    simp only [AnalyzerState.mk.injEq]
    refine ⟨hin, hsr, hff, hbn, ?_, ?_, ?_⟩
    · funext k
      exact (h1r k).trans (h2r k).symm
    · funext k
      exact (h1p k).trans (h2p k).symm
    · funext k
      exact (h1s k).trans (h2s k).symm
  rw [hst]

/-- Witness for C9: two separately written fresh instances with the same
audio parameters, fed one identical call. -/
theorem runOutputs_deterministic_witness :
    ((initAnalyzer true 48000 4096 2048).isInitialized =
        (AnalyzerState.mk true 48000 4096 2048 (fun _ => none) (fun _ => none)
          (fun _ => none)).isInitialized) ∧
      (∀ k, (initAnalyzer true 48000 4096 2048).raw k = none) ∧
      runOutputs (initAnalyzer true 48000 4096 2048) [⟨frameZero, 1, cfgValid⟩] =
        runOutputs (AnalyzerState.mk true 48000 4096 2048 (fun _ => none)
          (fun _ => none) (fun _ => none)) [⟨frameZero, 1, cfgValid⟩] :=
  ⟨rfl, fun _ => rfl,
    runOutputs_deterministic _ _ rfl rfl rfl rfl (fun _ => rfl) (fun _ => rfl)
      (fun _ => rfl) (fun _ => rfl) (fun _ => rfl) (fun _ => rfl) _⟩

/-! ### Claim C3: the post-processing pipeline for raw band values -/

/-- The per-band post-processing pipeline exactly as the specification
words it: tilt multiplication, conditional bass taming, gain, noise-floor
subtraction, power compression (skipped when the exponent is 1), the
soft-knee limiter above 0.8, and a final clamp to the interval `[0, 1]`,
applied to the window-averaged energy `e0`. -/
noncomputable def specPostProcess (p : Config) (f bandPos e0 : ℝ) : ℝ :=
  let e1 := e0 * (f / p.freqMin) ^ p.tilt
  let e2 := if bandPos < p.bassTameRange then
      e1 ^ (1 + (1 - bandPos / p.bassTameRange) * p.bassTame * 0.8)
    else e1
  let e3 := e2 * p.gain
  let e4 := max 0 (e3 - p.noiseFloor)
  let e5 := if p.compress = 1 then e4 else e4 ^ p.compress
  let e6 := if 0.8 < e5 then 0.8 + (e5 - 0.8) / (1 + (e5 - 0.8) * 2) else e5
  max 0 (min 1 e6)

theorem min_one_softLimit_eq {e : ℝ} (he : 0 ≤ e) :
    min 1 (softLimit e) =
      max 0 (min 1 (if 0.8 < e then 0.8 + (e - 0.8) / (1 + (e - 0.8) * 2) else e)) := by
  have hx : 0 ≤ softLimit e := softLimit_nonneg he
  rw [softLimit] at hx ⊢
  exact (max_eq_right (le_min zero_le_one hx)).symm

theorem pipeline_tail_eq (c x : ℝ) :
    min 1 (softLimit (if c ≠ 1 then (max 0 x) ^ c else max 0 x)) =
      max 0 (min 1
        (if 0.8 < (if c = 1 then max 0 x else (max 0 x) ^ c) then
          0.8 + ((if c = 1 then max 0 x else (max 0 x) ^ c) - 0.8) /
            (1 + ((if c = 1 then max 0 x else (max 0 x) ^ c) - 0.8) * 2)
        else if c = 1 then max 0 x else (max 0 x) ^ c)) := by
  have hee : (if c ≠ 1 then (max 0 x) ^ c else max 0 x) =
      (if c = 1 then max 0 x else (max 0 x) ^ c) := by
    by_cases hc : c = 1 <;> simp [hc]
  rw [hee]
  exact min_one_softLimit_eq (hee ▸ compressStage_nonneg x c)

theorem rawBand_eq_spec (sr fft : ℝ) (binCount : ℤ) (frame : ℤ → ℝ)
    (p : Config) (bandCount : ℤ) (j : ℕ) :
    rawBand sr fft binCount frame p bandCount j =
      specPostProcess p (fTarget p bandCount j) (bandT bandCount j)
        (preTiltEnergy sr fft binCount frame p bandCount j) := by
  simp only [rawBand, specPostProcess]
  exact pipeline_tail_eq p.compress _

theorem newRawList_eq_spec (st : AnalyzerState) (frame : ℤ → ℝ)
    (bc : ℤ) (p : Config) :
    newRawList st frame bc p = (List.range bc.toNat).map fun j =>
      specPostProcess p (fTarget p bc j) (bandT bc j)
        (preTiltEnergy st.sampleRate st.fftSize st.binCount frame p bc j) := by
  rw [newRawList]
  exact List.map_congr_left fun j _ => rawBand_eq_spec _ _ _ _ _ _ _

theorem getLogBandsCore_raw_eq (st : AnalyzerState) (frame : ℤ → ℝ)
    (bc : ℤ) (p : Config) (hinit : st.isInitialized = true) :
    (getLogBandsCore st frame bc p).1.raw bc = some (newRawList st frame bc p) := by
  rw [getLogBandsCore, if_neg (by rw [hinit]; simp)]
  show setMap st.raw bc _ bc = _
  rw [setMap]
  simp

/-- C3: in every call with the analyzer initialized, the stored raw
buffer holds, for each band index `j`, exactly the specification pipeline
(tilt, bass taming, gain, noise floor, compression, soft limiter, clamp
to `[0, 1]`) applied to the window-averaged energy of band `j`. -/
theorem getLogBands_raw_spec (st : AnalyzerState) (frame : ℤ → ℝ)
    (bc : ℤ) (p : Config) (hinit : st.isInitialized = true) (hbc : 0 ≤ bc) :
    (getLogBands st frame bc p).map (fun r => r.1.raw bc) =
      some (some ((List.range bc.toNat).map fun j =>
        specPostProcess p (fTarget p bc j) (bandT bc j)
          (preTiltEnergy st.sampleRate st.fftSize st.binCount frame p bc j))) := by
  rw [getLogBands]
  split
  · rw [Option.map_some', getLogBandsCore_raw_eq st frame bc p hinit,
      newRawList_eq_spec]
  · rw [if_neg (not_lt.mpr hbc), Option.map_some',
      getLogBandsCore_raw_eq (ensureBuffers st bc) frame bc p hinit,
      newRawList_eq_spec]
    rfl

/-- Witness for C3: a freshly initialized analyzer asked for one band. -/
theorem getLogBands_raw_spec_witness :
    (initAnalyzer true 1000 100 50).isInitialized = true ∧ (0 : ℤ) ≤ 1 ∧
      (getLogBands (initAnalyzer true 1000 100 50) frameZero 1 cfgValid).map
          (fun r => r.1.raw 1) =
        some (some ((List.range (1 : ℤ).toNat).map fun j =>
          specPostProcess cfgValid (fTarget cfgValid 1 j) (bandT 1 j)
            (preTiltEnergy (initAnalyzer true 1000 100 50).sampleRate
              (initAnalyzer true 1000 100 50).fftSize
              (initAnalyzer true 1000 100 50).binCount frameZero cfgValid 1 j))) :=
  ⟨rfl, by norm_num,
    getLogBands_raw_spec (initAnalyzer true 1000 100 50) frameZero 1 cfgValid
      rfl (by norm_num)⟩

/-! ### Claim C4: envelope advancement and returned buffer -/

/-- The attack/release envelope exactly as the specification words it:
for each band, if the raw value exceeds the persisted peak the peak moves
towards it by the fraction `attack`, otherwise by the fraction
`release`. -/
noncomputable def specEnvelopePeaks (st : AnalyzerState) (frame : ℤ → ℝ)
    (bc : ℤ) (p : Config) : List ℝ :=
  (List.range bc.toNat).map fun j =>
    let rawv := rawBand st.sampleRate st.fftSize st.binCount frame p bc j
    let pk := ((st.peaks bc).getD (zeros bc.toNat)).getD j 0
    if rawv > pk then pk + (rawv - pk) * p.attack else pk + (rawv - pk) * p.release

/-- The residual smoothing exactly as the specification words it, applied
to the just-updated peak of the same index. -/
noncomputable def specEnvelopeSmoothed (st : AnalyzerState) (frame : ℤ → ℝ)
    (bc : ℤ) (p : Config) : List ℝ :=
  (List.range bc.toNat).map fun j =>
    let pk2 := (specEnvelopePeaks st frame bc p).getD j 0
    let sm := ((st.smoothed bc).getD (zeros bc.toNat)).getD j 0
    sm + (pk2 - sm) * (1 - p.smoothing)

theorem newPeaksList_eq_spec (st : AnalyzerState) (frame : ℤ → ℝ)
    (bc : ℤ) (p : Config) :
    newPeaksList st frame bc p = specEnvelopePeaks st frame bc p := by
  rw [newPeaksList, specEnvelopePeaks]
  refine List.map_congr_left fun j hj => ?_
  rw [List.mem_range] at hj
  rw [envPeak, newRawList, getD_map_range _ hj]

theorem newSmoothedList_eq_spec (st : AnalyzerState) (frame : ℤ → ℝ)
    (bc : ℤ) (p : Config) :
    newSmoothedList st frame bc p = specEnvelopeSmoothed st frame bc p := by
  rw [newSmoothedList, specEnvelopeSmoothed]
  refine List.map_congr_left fun j hj => ?_
  rw [envSmooth, newPeaksList_eq_spec]

theorem specEnvelopePeaks_ensure (st : AnalyzerState) (frame : ℤ → ℝ)
    (bc : ℤ) (p : Config) (hpk : st.peaks bc = none) :
    specEnvelopePeaks (ensureBuffers st bc) frame bc p =
      specEnvelopePeaks st frame bc p := by
  rw [specEnvelopePeaks, specEnvelopePeaks]
  refine List.map_congr_left fun j hj => ?_
  rw [hpk, show (ensureBuffers st bc).peaks bc = some (zeros bc.toNat) by
    simp [ensureBuffers, setMap]]
  rfl

theorem specEnvelopeSmoothed_ensure (st : AnalyzerState) (frame : ℤ → ℝ)
    (bc : ℤ) (p : Config) (hpk : st.peaks bc = none)
    (hsm : st.smoothed bc = none) :
    specEnvelopeSmoothed (ensureBuffers st bc) frame bc p =
      specEnvelopeSmoothed st frame bc p := by
  rw [specEnvelopeSmoothed, specEnvelopeSmoothed]
  refine List.map_congr_left fun j hj => ?_
  rw [specEnvelopePeaks_ensure st frame bc p hpk]
  rw [hsm, show (ensureBuffers st bc).smoothed bc = some (zeros bc.toNat) by
    simp [ensureBuffers, setMap]]
  rfl

theorem getLogBandsCore_envelope_eq (st : AnalyzerState) (frame : ℤ → ℝ)
    (bc : ℤ) (p : Config) (hinit : st.isInitialized = true) :
    (getLogBandsCore st frame bc p).1.peaks bc = some (newPeaksList st frame bc p) ∧
    (getLogBandsCore st frame bc p).1.smoothed bc = some (newSmoothedList st frame bc p) ∧
    (getLogBandsCore st frame bc p).2 = newSmoothedList st frame bc p := by
  rw [getLogBandsCore, if_neg (by rw [hinit]; simp)]
  refine ⟨?_, ?_, rfl⟩
  · show setMap st.peaks bc _ bc = _
    rw [setMap]
    simp
  · show setMap st.smoothed bc _ bc = _
    rw [setMap]
    simp

/-- C4: in every call with the analyzer initialized, the persisted state
for the requested band count advances exactly by the attack/release
envelope followed by the residual smoothing, and the returned vector is
the updated smoothed buffer.  The hypothesis `hsync` (the three maps
share their key set) holds in every reachable state. -/
theorem getLogBands_envelope_spec (st : AnalyzerState) (frame : ℤ → ℝ)
    (bc : ℤ) (p : Config) (hinit : st.isInitialized = true) (hbc : 0 ≤ bc)
    (hsync : (st.raw bc).isSome = (st.peaks bc).isSome ∧
      (st.raw bc).isSome = (st.smoothed bc).isSome) :
    (getLogBands st frame bc p).map
        (fun r => (r.1.peaks bc, r.1.smoothed bc, r.2)) =
      some (some (specEnvelopePeaks st frame bc p),
        some (specEnvelopeSmoothed st frame bc p),
        specEnvelopeSmoothed st frame bc p) := by
  rw [getLogBands]
  split
  · obtain ⟨h1, h2, h3⟩ := getLogBandsCore_envelope_eq st frame bc p hinit
    rw [Option.map_some', h1, h2, h3, newPeaksList_eq_spec, newSmoothedList_eq_spec]
  · rename_i hbuf
    have hraw : st.raw bc = none := Option.not_isSome_iff_eq_none.mp hbuf
    have hpk : st.peaks bc = none := by
      have h1 := hsync.1
      rw [hraw] at h1
      exact Option.not_isSome_iff_eq_none.mp (by rw [← h1]; simp)
    have hsm : st.smoothed bc = none := by
      have h1 := hsync.2
      rw [hraw] at h1
      exact Option.not_isSome_iff_eq_none.mp (by rw [← h1]; simp)
    obtain ⟨h1, h2, h3⟩ :=
      getLogBandsCore_envelope_eq (ensureBuffers st bc) frame bc p hinit
    rw [if_neg (not_lt.mpr hbc), Option.map_some', h1, h2, h3,
      newPeaksList_eq_spec, newSmoothedList_eq_spec,
      specEnvelopePeaks_ensure st frame bc p hpk,
      specEnvelopeSmoothed_ensure st frame bc p hpk hsm]

/-- Witness for C4: a freshly initialized analyzer asked for one band. -/
theorem getLogBands_envelope_spec_witness :
    (initAnalyzer true 1000 100 50).isInitialized = true ∧ (0 : ℤ) ≤ 1 ∧
      (getLogBands (initAnalyzer true 1000 100 50) frameZero 1 cfgValid).map
          (fun r => (r.1.peaks 1, r.1.smoothed 1, r.2)) =
        some (some (specEnvelopePeaks (initAnalyzer true 1000 100 50) frameZero 1 cfgValid),
          some (specEnvelopeSmoothed (initAnalyzer true 1000 100 50) frameZero 1 cfgValid),
          specEnvelopeSmoothed (initAnalyzer true 1000 100 50) frameZero 1 cfgValid) :=
  ⟨rfl, by norm_num,
    getLogBands_envelope_spec (initAnalyzer true 1000 100 50) frameZero 1 cfgValid
      rfl (by norm_num) ⟨rfl, rfl⟩⟩

/-! ### Claim C6: behavior on non-positive band counts -/

/-- Counterexample to C6 as stated: a call with `bandCount = 0` is not
rejected; it silently succeeds and returns a (zero-length) band vector. -/
theorem getLogBands_bandCountZero_counterexample :
    (getLogBands (initAnalyzer true 1000 100 50) frameZero 0 cfgValid).map Prod.snd
      = some ([] : List ℝ) := by
  rw [getLogBands]
  rw [if_neg (by simp [initAnalyzer])]
  rw [if_neg (by norm_num)]
  rw [Option.map_some']
  rw [getLogBandsCore, if_neg (by simp [ensureBuffers, initAnalyzer])]
  simp [newSmoothedList]

/-- C6 amended: only a negative `bandCount` produces an error (the
`Float32Array` allocation of the missing buffer throws); `bandCount = 0`
is accepted silently and the call returns a vector rather than
rejecting. -/
theorem getLogBands_invalid_bandCount (st : AnalyzerState) (frame : ℤ → ℝ)
    (p : Config) (bc : ℤ) :
    (bc < 0 → st.raw bc = none → getLogBands st frame bc p = none) ∧
      (getLogBands st frame 0 p).isSome = true := by
  constructor
  · intro hneg hfresh
    rw [getLogBands, if_neg (by simp [hfresh]), if_pos hneg]
  · exact getLogBands_isSome st frame le_rfl p

/-- Witness for the amended C6: the throwing call at `bandCount = -1` and
the silently accepted call at `bandCount = 0`. -/
theorem getLogBands_invalid_bandCount_witness :
    ((-1 : ℤ) < 0 ∧ (initAnalyzer true 1000 100 50).raw (-1) = none ∧
        getLogBands (initAnalyzer true 1000 100 50) frameZero (-1) cfgValid = none) ∧
      (getLogBands (initAnalyzer true 1000 100 50) frameZero 0 cfgValid).isSome = true := by
  have h := getLogBands_invalid_bandCount (initAnalyzer true 1000 100 50)
    frameZero cfgValid (-1)
  exact ⟨⟨by norm_num, rfl, h.1 (by norm_num) rfl⟩, h.2⟩

/-! ### Claim C7: behavior on invalid frequency bounds -/

/-- A configuration with inverted frequency bounds
(`freqMax = 100 < 200 = freqMin`). -/
noncomputable def cfgBad : Config := ⟨200, 100, 0, 0, 0, 0, 1, 1, 1, 0, 0⟩

/-- Counterexample to C7 as stated: with inverted frequency bounds the
call is not rejected; it silently returns a band vector of the requested
length. -/
theorem getLogBands_badBounds_counterexample :
    cfgBad.freqMax ≤ cfgBad.freqMin ∧
      (getLogBands (initAnalyzer true 1000 100 50) frameZero 1 cfgBad).map
        (fun r => r.2.length) = some 1 := by
  refine ⟨by norm_num [cfgBad], ?_⟩
  rw [getLogBands]
  rw [if_neg (by simp [initAnalyzer])]
  rw [if_neg (by norm_num)]
  rw [Option.map_some']
  rw [getLogBandsCore, if_neg (by simp [ensureBuffers, initAnalyzer])]
  simp [newSmoothedList_length]

/-- C7 amended: the code performs no validation of the frequency bounds
at all; an initialized analyzer called with `freqMin ≤ 0` or
`freqMax ≤ freqMin` neither errors nor clamps the bounds, it computes
with them and returns a band vector of the requested length. -/
theorem getLogBands_no_bounds_validation (st : AnalyzerState) (frame : ℤ → ℝ)
    (bc : ℤ) (p : Config) (hinit : st.isInitialized = true) (hbc : 0 ≤ bc)
    (hbad : p.freqMax ≤ p.freqMin ∨ p.freqMin ≤ 0) :
    ∃ st2 out, getLogBands st frame bc p = some (st2, out) ∧
      out.length = bc.toNat := by
  rw [getLogBands]
  split
  · refine ⟨(getLogBandsCore st frame bc p).1, (getLogBandsCore st frame bc p).2,
      rfl, ?_⟩
    rw [(getLogBandsCore_envelope_eq st frame bc p hinit).2.2,
      newSmoothedList_length]
  · rw [if_neg (not_lt.mpr hbc)]
    refine ⟨(getLogBandsCore (ensureBuffers st bc) frame bc p).1,
      (getLogBandsCore (ensureBuffers st bc) frame bc p).2, rfl, ?_⟩
    rw [(getLogBandsCore_envelope_eq (ensureBuffers st bc) frame bc p hinit).2.2,
      newSmoothedList_length]

/-- Witness for the amended C7: the concrete call with inverted bounds. -/
theorem getLogBands_no_bounds_validation_witness :
    (initAnalyzer true 1000 100 50).isInitialized = true ∧ (0 : ℤ) ≤ 1 ∧
      (cfgBad.freqMax ≤ cfgBad.freqMin ∨ cfgBad.freqMin ≤ 0) ∧
      ∃ st2 out,
        getLogBands (initAnalyzer true 1000 100 50) frameZero 1 cfgBad =
            some (st2, out) ∧ out.length = (1 : ℤ).toNat :=
  ⟨rfl, by norm_num, Or.inl (by norm_num [cfgBad]),
    getLogBands_no_bounds_validation (initAnalyzer true 1000 100 50) frameZero 1
      cfgBad rfl (by norm_num) (Or.inl (by norm_num [cfgBad]))⟩

/-! ### Claim C2: the window-averaged pre-tilt energy -/

/-- The pre-tilt band energy exactly as the C2 sentences of the
specification word it, including the clamping of `centerBin` into the
valid bin range asserted there. -/
noncomputable def specC2Energy (sr fft : ℝ) (binCount : ℤ) (frame : ℤ → ℝ)
    (p : Config) (bandCount : ℤ) (j : ℕ) : ℝ :=
  let hzPerBin := sr / fft
  let minBin : ℤ := max 1 ⌊p.freqMin / hzPerBin⌋
  let maxBin : ℤ := min (binCount - 1) ⌈p.freqMax / hzPerBin⌉
  let t : ℝ := if bandCount = 1 then 0 else (j : ℝ) / ((bandCount : ℝ) - 1)
  let f := Real.exp (Real.log p.freqMin + t * (Real.log p.freqMax - Real.log p.freqMin))
  let c : ℤ := min maxBin (max minBin (round (f / hzPerBin)))
  let w : ℤ := max 1 ⌊(3 : ℝ) - 2 * t⌋
  let bins := (Finset.Icc (c - w) (c + w)).filter fun b => minBin ≤ b ∧ b ≤ maxBin
  if bins.card = 0 then 0
  else (∑ b ∈ bins, (10 : ℝ) ^ (max (frame b) (-80) / 20)) / (bins.card : ℝ)

/-- The same formula with the single correction the code forces: the
center bin `round(f / hzPerBin)` is not clamped; bins outside the valid
range are only excluded by the window intersection. -/
noncomputable def specC2EnergyUnclamped (sr fft : ℝ) (binCount : ℤ) (frame : ℤ → ℝ)
    (p : Config) (bandCount : ℤ) (j : ℕ) : ℝ :=
  let hzPerBin := sr / fft
  let minBin : ℤ := max 1 ⌊p.freqMin / hzPerBin⌋
  let maxBin : ℤ := min (binCount - 1) ⌈p.freqMax / hzPerBin⌉
  let t : ℝ := if bandCount = 1 then 0 else (j : ℝ) / ((bandCount : ℝ) - 1)
  let f := Real.exp (Real.log p.freqMin + t * (Real.log p.freqMax - Real.log p.freqMin))
  let c : ℤ := round (f / hzPerBin)
  let w : ℤ := max 1 ⌊(3 : ℝ) - 2 * t⌋
  let bins := (Finset.Icc (c - w) (c + w)).filter fun b => minBin ≤ b ∧ b ≤ maxBin
  if bins.card = 0 then 0
  else (∑ b ∈ bins, (10 : ℝ) ^ (max (frame b) (-80) / 20)) / (bins.card : ℝ)

theorem bandT_eq_specT (bandCount : ℤ) (j : ℕ) (hj : (j : ℤ) < bandCount) :
    bandT bandCount j =
      if bandCount = 1 then 0 else (j : ℝ) / ((bandCount : ℝ) - 1) := by
  by_cases h1 : bandCount = 1
  · subst h1
    have hj0 : j = 0 := by omega
    subst hj0
    simp [bandT]
  · rw [if_neg h1, bandT]
    have h2 : (1 : ℤ) ≤ bandCount - 1 := by omega
    rw [max_eq_right h2]
    push_cast
    rfl

theorem windowBins_image (minBin maxBin c w : ℤ) :
    (Finset.Icc (c - w) (c + w)).filter (fun b => minBin ≤ b ∧ b ≤ maxBin) =
      (windowBins minBin maxBin c w).image (fun k => c + k) := by
  ext b
  simp only [windowBins, Finset.mem_image, Finset.mem_filter, Finset.mem_Icc]
  constructor
  · intro hb
    exact ⟨b - c, ⟨⟨by omega, by omega⟩, by omega, by omega⟩, by omega⟩
  · rintro ⟨k, ⟨⟨h1, h2⟩, h3, h4⟩, rfl⟩
    exact ⟨⟨by omega, by omega⟩, h3, h4⟩

theorem windowBins_sum_eq (g : ℤ → ℝ) (minBin maxBin c w : ℤ) :
    ∑ k ∈ windowBins minBin maxBin c w, g (c + k) =
      ∑ b ∈ (Finset.Icc (c - w) (c + w)).filter (fun b => minBin ≤ b ∧ b ≤ maxBin),
        g b := by
  rw [windowBins_image, Finset.sum_image (fun x _ y _ h => by omega)]

theorem windowBins_card_eq (minBin maxBin c w : ℤ) :
    ((Finset.Icc (c - w) (c + w)).filter (fun b => minBin ≤ b ∧ b ≤ maxBin)).card =
      (windowBins minBin maxBin c w).card := by
  rw [windowBins_image, Finset.card_image_of_injOn (fun x _ y _ h => by omega)]

theorem avg_if_eq (s : Finset ℤ) (g : ℤ → ℝ) :
    (if 0 < s.card then (∑ b ∈ s, g b) / (s.card : ℝ) else ∑ b ∈ s, g b) =
      if s.card = 0 then 0 else (∑ b ∈ s, g b) / (s.card : ℝ) := by
  rcases Nat.eq_zero_or_pos s.card with h | h
  · rw [if_neg (by omega), if_pos h, Finset.card_eq_zero.mp h, Finset.sum_empty]
  · rw [if_pos h, if_neg (by omega)]

/-- C2 amended: the pre-tilt energy of band `j` equals the window-average
formula of the specification with the centerBin left unclamped; bins
outside the valid range are excluded only by the window intersection. -/
theorem preTiltEnergy_eq_spec (sr fft : ℝ) (binCount : ℤ) (frame : ℤ → ℝ)
    (p : Config) (bandCount : ℤ) (j : ℕ) (hj : (j : ℤ) < bandCount) :
    preTiltEnergy sr fft binCount frame p bandCount j =
      specC2EnergyUnclamped sr fft binCount frame p bandCount j := by
  have ht := bandT_eq_specT bandCount j hj
  simp only [specC2EnergyUnclamped, preTiltEnergy, windowEnergy, minBinOf,
    maxBinOf, centerBin, windowSize, fTarget, linOfDb]
  rw [← ht]
  rw [show (3 : ℝ) - 2 * bandT bandCount j = 3 - bandT bandCount j * 2 by ring]
  rw [windowBins_sum_eq (fun b => (10 : ℝ) ^ (max (frame b) (-80) / 20)),
    ← windowBins_card_eq]
  exact avg_if_eq _ _

/-- Witness for the amended C2: band 0 of 1 at the concrete audio
parameters used by the counterexample. -/
theorem preTiltEnergy_eq_spec_witness :
    ((0 : ℕ) : ℤ) < 1 ∧
      preTiltEnergy 1000 100 50 frameZero cfgValid 1 0 =
        specC2EnergyUnclamped 1000 100 50 frameZero cfgValid 1 0 :=
  ⟨by norm_num, preTiltEnergy_eq_spec 1000 100 50 frameZero cfgValid 1 0 (by norm_num)⟩

/-- The configuration of the C2 counterexample: `freqMin = 4` sits below
one bin width (10 Hz), so the unclamped center bin of the lowest band is
bin 0, strictly below the valid lower bin 1. -/
noncomputable def cfgNarrow : Config := ⟨4, 35, 0, 0, 0, 0, 1, 1, 1, 0, 0⟩

/-- The spectral frame of the C2 counterexample: 0 dB at bin 4, silence
(-80 dB) everywhere else. -/
noncomputable def framePeak : ℤ → ℝ := fun b => if b = 4 then 0 else -80

theorem linOfDb_neg80 : linOfDb (-80) = 1 / 10000 := by
  rw [linOfDb, max_self]
  rw [show ((-80 : ℝ)) / 20 = ((-4 : ℤ) : ℝ) by norm_num, Real.rpow_intCast]
  norm_num

theorem linOfDb_zero : linOfDb 0 = 1 := by
  rw [linOfDb, show max (0 : ℝ) (-80) = 0 by norm_num,
    show (0 : ℝ) / 20 = 0 by norm_num, Real.rpow_zero]

theorem bandT_one_zero : bandT 1 0 = 0 := by simp [bandT]

theorem fTarget_narrow : fTarget cfgNarrow 1 0 = 4 := by
  rw [fTarget, bandT_one_zero, zero_mul, add_zero]
  exact (Real.exp_log (by norm_num [cfgNarrow])).trans (by norm_num [cfgNarrow])

theorem centerBin_narrow : centerBin 1000 100 cfgNarrow 1 0 = 0 := by
  rw [centerBin, fTarget_narrow, round_eq]
  norm_num

theorem windowSize_one : windowSize 1 0 = 3 := by
  rw [windowSize, bandT_one_zero]
  norm_num

theorem minBinOf_narrow : minBinOf 1000 100 cfgNarrow = 1 := by
  rw [minBinOf]
  norm_num [cfgNarrow]

theorem maxBinOf_narrow : maxBinOf 1000 100 50 cfgNarrow = 4 := by
  rw [maxBinOf, show cfgNarrow.freqMax / ((1000 : ℝ) / 100) = 7 / 2 by norm_num [cfgNarrow],
    show ⌈(7 : ℝ) / 2⌉ = (4 : ℤ) from by rw [Int.ceil_eq_iff]; norm_num]
  norm_num

/-- The value the code computes for the lowest band of the
counterexample: the unclamped window around bin 0 only reaches bins
1–3, which are silent. -/
theorem preTiltEnergy_narrow :
    preTiltEnergy 1000 100 50 framePeak cfgNarrow 1 0 = 1 / 10000 := by
  rw [preTiltEnergy, minBinOf_narrow, maxBinOf_narrow, centerBin_narrow, windowSize_one]
  simp only [windowEnergy]
  rw [show windowBins 1 4 0 3 = {1, 2, 3} from by decide]
  rw [show ({1, 2, 3} : Finset ℤ).card = 3 from by decide]
  rw [if_pos (by norm_num)]
  rw [Finset.sum_insert (by decide), Finset.sum_insert (by decide), Finset.sum_singleton]
  norm_num [framePeak, linOfDb_neg80]

/-- The value the clamped formula of the specification gives for the
same band: clamping moves the center to bin 1, so the window reaches the
loud bin 4. -/
theorem specC2Energy_narrow :
    specC2Energy 1000 100 50 framePeak cfgNarrow 1 0 = 10003 / 40000 := by
  simp only [specC2Energy]
  norm_num [cfgNarrow]
  rw [Real.exp_log (by norm_num : (0:ℝ) < 4)]
  rw [show ⌈(7:ℝ)/2⌉ = (4:ℤ) from by rw [Int.ceil_eq_iff]; norm_num]
  rw [show round ((4:ℝ)/10) = 0 from by rw [round_eq]; norm_num]
  norm_num
  rw [show Finset.filter (fun b => 1 ≤ b ∧ b ≤ 49 ∧ b ≤ 4) (Finset.Icc (-2 : ℤ) 4) =
    ({1, 2, 3, 4} : Finset ℤ) from by decide]
  rw [if_neg (by decide)]
  rw [show ({1, 2, 3, 4} : Finset ℤ).card = 4 from by decide]
  rw [Finset.sum_insert (by decide), Finset.sum_insert (by decide),
    Finset.sum_insert (by decide), Finset.sum_singleton]
  simp only [show ∀ db : ℝ, (10 : ℝ) ^ (max db (-80) / 20) = linOfDb db from fun _ => rfl]
  norm_num [framePeak, linOfDb_neg80, linOfDb_zero]

/-- Counterexample to C2 as stated: at `sampleRate = 1000`,
`fftSize = 100`, `binCount = 50`, `freqMin = 4`, `freqMax = 35`,
`bandCount = 1`, band 0, the pre-tilt energy computed by the code
(1/10000) differs from the clamped-centerBin formula asserted by the
specification (10003/40000). -/
theorem preTiltEnergy_clamped_counterexample :
    preTiltEnergy 1000 100 50 framePeak cfgNarrow 1 0 ≠
      specC2Energy 1000 100 50 framePeak cfgNarrow 1 0 := by
  rw [preTiltEnergy_narrow, specC2Energy_narrow]
  norm_num
